import Mathlib

/-!
# LiveCategories session engine — verification of the specification

Shallow embedding of the backend game-session engine
(`src/backend/app/main.py`, with the divergent Summary-timeout rule of
`src/backend/app/main_postgres.py` embedded separately), and proofs of the
spec's claims about it.

Modelling conventions:
* wall-clock time (Python `time.time()` floats) is modelled by `ℚ`;
* Python `dict` (insertion-ordered, unique keys) for scores is modelled by an
  association list `List (String × Nat)` with `dictGet` / `dictSet` mirroring
  `d.get(k, 0)` and `d[k] = v`;
* Python truthiness on optional floats (`x or y`, `if x and ...`) is modelled
  explicitly: `None` and `0.0` are falsy (`pyOr`, `deadlinePassed`); on
  optional strings `None` and `""` are falsy (`strTruthy`);
* the set of players is the list of registered player ids in insertion order
  (Python dict keys of `g.players`).
-/

namespace LiveCategories

/-- The five session phases (`class Phase(str, Enum)` in `main.py`). -/
inductive Phase where
  | lobby
  | bidding
  | listing
  | summary
  | ended
deriving DecidableEq, Repr

/-- Events the handlers emit (broadcasts / single-socket sends), insofar as the
claims mention them. -/
inductive GameEvent where
  | bidUpdate (highBid : Nat) (highBidderId : String)
  | itemRejected (reason : String) (text : String)
  | listingUpdate (count : Nat) (lastItem : String)
  | stateUpdate
  | roundResult (winnerId : Option String) (listerHit : Bool)
deriving DecidableEq, Repr

/-- The session state: the fields of `@dataclass Game` in `main.py` that the
engine's transition rules read or write. -/
structure Game where
  id : String
  phase : Phase
  bestOf : Nat
  round : Nat
  players : List String
  scores : List (String × Nat)
  category : Option String
  categoryItems : Finset String
  highBid : Nat
  highBidderId : Option String
  listerId : Option String
  usedItems : Finset String
  listCount : Nat
  phaseEndsAt : Option ℚ
deriving DecidableEq

/-- `Game(id=game_id)` with the dataclass defaults (`ensure_game`). -/
def Game.fresh (id : String) : Game :=
  { id := id
    phase := .lobby
    bestOf := 5
    round := 1
    players := []
    scores := []
    category := none
    categoryItems := ∅
    highBid := 0
    highBidderId := none
    listerId := none
    usedItems := ∅
    listCount := 0
    phaseEndsAt := none }

/-- Python `d.get(k, 0)` on an insertion-ordered dict modelled as an
association list: value at the first matching key, defaulting to 0. -/
def dictGet : List (String × Nat) → String → Nat
  | [], _ => 0
  | kv :: rest, k => if kv.1 = k then kv.2 else dictGet rest k

/-- Python `d[k] = v` on a unique-key association list: replace the value at an
existing key in place, append a new entry otherwise. -/
def dictSet : List (String × Nat) → String → Nat → List (String × Nat)
  | [], k, v => [(k, v)]
  | kv :: rest, k, v => if kv.1 = k then (k, v) :: rest else kv :: dictSet rest k v

/-- Python `x or y` for an optional float `x`: `None` and `0.0` are falsy. -/
def pyOr (x : Option ℚ) (y : ℚ) : ℚ :=
  match x with
  | none => y
  | some t => if t = 0 then y else t

/-- The tick guard `if g.phase_ends_at and now() >= g.phase_ends_at`:
true when the deadline is set, nonzero (Python truthiness) and reached. -/
def deadlinePassed (d : Option ℚ) (now : ℚ) : Bool :=
  match d with
  | none => false
  | some t => decide (t ≠ 0) && decide (t ≤ now)

/-- Python truthiness of an optional string (`if g.high_bidder_id:`):
`None` and `""` are falsy. -/
def strTruthy (x : Option String) : Bool :=
  match x with
  | none => false
  | some s => decide (s ≠ "")

/-- Python `str.split()` (no separator): split on runs of whitespace, dropping
empty pieces.  Implemented on character lists with an accumulator for the word
being read, so it evaluates in the kernel. -/
def splitWordsAux : List Char → List Char → List (List Char)
  | [], acc => if acc = [] then [] else [acc.reverse]
  | c :: cs, acc =>
    if c.isWhitespace then
      if acc = [] then splitWordsAux cs []
      else acc.reverse :: splitWordsAux cs []
    else splitWordsAux cs (c :: acc)

/-- Python `" ".join(words)` on character lists. -/
def joinWords : List (List Char) → List Char
  | [] => []
  | [w] => w
  | w :: ws => w ++ ' ' :: joinWords ws

/-- Python `str.strip()` on character lists (redundant before `split()`, but the
source applies it, so we keep it). -/
def trimChars (cs : List Char) : List Char :=
  ((cs.dropWhile Char.isWhitespace).reverse.dropWhile Char.isWhitespace).reverse

/-- `normalize` from `main.py`: `" ".join(s.lower().strip().split())` —
lowercase, trim, split on whitespace runs, re-join with single spaces. -/
def normalize (s : String) : String :=
  String.mk (joinWords (splitWordsAux (trimChars (s.data.map Char.toLower)) []))

/-- The `place_bid` branch of `ws_endpoint` (`main.py` lines 227-235).
`n = max(1, int(data.get("n", 1)))`; accepted when the clamped bid beats the
current high bid; on acceptance the shot clock caps the deadline at
`min(existing or now+15, now+5)` and a `bid_update` is broadcast.  Returns the
updated game and the emitted event, if any. -/
def placeBid (g : Game) (pid : String) (n : Int) (now : ℚ) : Game × Option GameEvent :=
  if g.phase = .bidding then
    if (g.highBid : Int) < max 1 n then
      ({ g with
          highBid := (max 1 n).toNat
          highBidderId := some pid
          phaseEndsAt := some (min (pyOr g.phaseEndsAt (now + 15)) (now + 5)) },
        some (.bidUpdate (max 1 n).toNat pid))
    else (g, none)
  else (g, none)

/-- The `pass` branch of `ws_endpoint` (`main.py` lines 238-247): with a high
bidder set, move to Listing, lister = high bidder, reset the round's listing
state, deadline `now + 30`. -/
def passCmd (g : Game) (now : ℚ) : Game × Option GameEvent :=
  if g.phase = .bidding ∧ strTruthy g.highBidderId then
    ({ g with
        listerId := g.highBidderId
        phase := .listing
        listCount := 0
        usedItems := ∅
        phaseEndsAt := some (now + 30) }, some .stateUpdate)
  else (g, none)

/-- The `submit_item` branch of `ws_endpoint` (`main.py` lines 250-265): only
the lister during Listing; normalize, skip empty, reject duplicates then
non-category items, otherwise accept; when the new count reaches
`g.high_bid or 1` force the deadline to `now`. -/
def submitItem (g : Game) (pid : String) (raw : String) (now : ℚ) : Game × Option GameEvent :=
  if g.phase = .listing ∧ g.listerId = some pid then
    if normalize raw = "" then (g, none)
    else if normalize raw ∈ g.usedItems then
      (g, some (.itemRejected "duplicate" (normalize raw)))
    else if normalize raw ∉ g.categoryItems then
      (g, some (.itemRejected "invalid" (normalize raw)))
    else
      (if (if g.highBid = 0 then 1 else g.highBid) ≤ g.listCount + 1 then
          { g with
              usedItems := insert (normalize raw) g.usedItems
              listCount := g.listCount + 1
              phaseEndsAt := some now }
        else
          { g with
              usedItems := insert (normalize raw) g.usedItems
              listCount := g.listCount + 1 },
        some (.listingUpdate (g.listCount + 1) (normalize raw)))
  else (g, none)

/-- The `start_match` branch of `ws_endpoint` (`main.py` lines 268-269): in the
Lobby, set `bestOf`. -/
def startMatch (g : Game) (b : Nat) : Game :=
  if g.phase = .lobby then { g with bestOf := b } else g

/-- The Bidding-timeout transition of `tick_loop` (`main.py` lines 142-152):
seed `highBid = 1` with the first registered player as bidder when no bid was
placed and players exist, then enter Listing. -/
def tickBidding (g : Game) (now : ℚ) : Game :=
  let g1 := if ¬ strTruthy g.highBidderId ∧ g.players ≠ [] then
      { g with highBid := 1, highBidderId := g.players.head? }
    else g
  { g1 with
      listerId := g1.highBidderId
      phase := .listing
      listCount := 0
      usedItems := ∅
      phaseEndsAt := some (now + 30) }

/-- The round winner computed on a Listing timeout (`main.py` lines 155-158):
`lister_hit = list_count >= high_bid`; with exactly two players the opponent is
the first player id different from the lister, otherwise `None`; the winner is
the lister on a hit and the opponent otherwise. -/
def roundWinner (g : Game) : Option String :=
  if g.highBid ≤ g.listCount then g.listerId
  else if g.players.length = 2 then
    (g.players.filter (fun p => some p ≠ g.listerId)).head?
  else none

/-- The score update on a Listing timeout (`main.py` lines 159-160):
`if winner: g.scores[winner] = g.scores.get(winner, 0) + 1`. -/
def roundScores (g : Game) : List (String × Nat) :=
  if strTruthy (roundWinner g) then
    match roundWinner g with
    | some w => dictSet g.scores w (dictGet g.scores w + 1)
    | none => g.scores
  else g.scores

/-- The Listing-timeout transition of `tick_loop` (`main.py` lines 153-169):
credit the round winner, enter Summary with deadline `now + 3`. -/
def tickListing (g : Game) (now : ℚ) : Game :=
  { g with
      scores := roundScores g
      phase := .summary
      phaseEndsAt := some (now + 3) }

/-- The Summary-timeout transition of `tick_loop` (`main.py` lines 170-185):
win threshold `bestOf // 2 + 1`; a score at the threshold ends the match,
otherwise next round begins Bidding with bid state reset and freshly loaded
category items (`newItems`). -/
def tickSummary (g : Game) (now : ℚ) (newItems : Finset String) : Game :=
  if (g.scores.map (fun kv => kv.2)).any (fun s => g.bestOf / 2 + 1 ≤ s) then
    { g with phase := .ended, phaseEndsAt := none }
  else
    { g with
        round := g.round + 1
        phase := .bidding
        highBid := 0
        highBidderId := none
        listerId := none
        category := some "programming_languages"
        categoryItems := newItems
        phaseEndsAt := some (now + 15) }

/-- One iteration of `tick_loop` (`main.py` lines 134-186) as a state
transition: when the deadline is set, nonzero and reached, dispatch on the
phase; Lobby and Ended have no timeout branch. -/
def tick (g : Game) (now : ℚ) (newItems : Finset String) : Game :=
  if deadlinePassed g.phaseEndsAt now then
    match g.phase with
    | .bidding => tickBidding g now
    | .listing => tickListing g now
    | .summary => tickSummary g now newItems
    | _ => g
  else g

/-- The Summary-timeout transition of `main_postgres.py`'s `tick_loop`
(lines 185-211): the win target is hardcoded to `1` (source comment: For
single round games, end after 1 round); otherwise next round begins Bidding
with the same category and deadline `now + BIDDING_TIME_SECONDS` (30, from
`config.py`). -/
def tickSummaryPg (g : Game) (now : ℚ) : Game :=
  if (g.scores.map (fun kv => kv.2)).any (fun s => 1 ≤ s) then
    { g with phase := .ended, phaseEndsAt := none }
  else
    { g with
        round := g.round + 1
        phase := .bidding
        highBid := 0
        highBidderId := none
        listerId := none
        phaseEndsAt := some (now + 30) }

/-- Replaying a list of `place_bid` commands `(playerId, n, time)` during one
Bidding phase; returns the final state and the trace of accepted bids
`(playerId, new high bid)`. -/
def runBids : Game → List (String × Int × ℚ) → Game × List (String × Nat)
  | g, [] => (g, [])
  | g, c :: rest =>
    let r := placeBid g c.1 c.2.1 c.2.2
    let rr := runBids r.1 rest
    (rr.1, if r.2.isSome then (c.1, r.1.highBid) :: rr.2 else rr.2)

/-- The invariant of claim C9: the listing counter equals the number of used
items. -/
abbrev listInv (g : Game) : Prop := g.listCount = g.usedItems.card

/-! Concrete sessions used by the witness theorems. -/

/-- A session in the Bidding phase with two players. -/
def wBid : Game :=
  { Game.fresh "gb" with
      phase := .bidding
      players := ["a", "b"]
      scores := [("a", 0), ("b", 0)]
      categoryItems := {"python"}
      phaseEndsAt := some 16 }

/-- A session in the Listing phase: lister `a` owes 2 items, has produced 1. -/
def wList : Game :=
  { Game.fresh "gl" with
      phase := .listing
      players := ["a", "b"]
      scores := [("a", 0), ("b", 0)]
      listerId := some "a"
      categoryItems := {"grape", "apple"}
      highBid := 2
      listCount := 1
      usedItems := {"apple"}
      phaseEndsAt := some 50 }

/-- A session in the Summary phase of a best-of-5 match, player `a` at 3. -/
def wSum : Game :=
  { Game.fresh "gs" with
      phase := .summary
      bestOf := 5
      scores := [("a", 3), ("b", 1)]
      phaseEndsAt := some 10 }

/-- A Listing-phase session whose used items and category are disjoint. -/
def wDup : Game :=
  { Game.fresh "gd" with
      phase := .listing
      players := ["a", "b"]
      listerId := some "a"
      categoryItems := {"grape"}
      highBid := 3
      listCount := 1
      usedItems := {"apple"}
      phaseEndsAt := some 50 }

/-! ## Helper lemmas -/

theorem dictGet_dictSet (d : List (String × Nat)) (k : String) (v : Nat) (k' : String) :
    dictGet (dictSet d k v) k' = if k' = k then v else dictGet d k' := by
  induction d with
  | nil =>
    by_cases h : k' = k
    · subst h; simp [dictSet, dictGet]
    · have h' : ¬ k = k' := fun hh => h hh.symm
      simp [dictSet, dictGet, h, h']
  | cons kv rest ih =>
    by_cases h1 : kv.1 = k
    · by_cases h2 : k' = k
      · subst h2; simp [dictSet, dictGet, h1]
      · have h' : ¬ k = k' := fun hh => h2 hh.symm
        have hne : ¬ kv.1 = k' := fun hh => h2 ((h1.symm.trans hh).symm)
        simp [dictSet, dictGet, h1, h2, hne, h']
    · by_cases h2 : kv.1 = k'
      · have hk : ¬ k' = k := fun hh => h1 (h2.trans hh)
        simp [dictSet, dictGet, h1, h2, hk]
      · simp [dictSet, dictGet, h1, h2, ih]

theorem placeBid_eq (g : Game) (pid : String) (n : Int) (now : ℚ) :
    placeBid g pid n now =
      if g.phase = .bidding ∧ (g.highBid : Int) < max 1 n then
        ({ g with
            highBid := (max 1 n).toNat
            highBidderId := some pid
            phaseEndsAt := some (min (pyOr g.phaseEndsAt (now + 15)) (now + 5)) },
          some (.bidUpdate (max 1 n).toNat pid))
      else (g, none) := by
  unfold placeBid
  by_cases h1 : g.phase = .bidding
  · by_cases h2 : (g.highBid : Int) < max 1 n <;> simp [h1, h2]
  · simp [h1]

theorem placeBid_phase (g : Game) (pid : String) (n : Int) (now : ℚ) :
    (placeBid g pid n now).1.phase = g.phase := by
  rw [placeBid_eq]
  by_cases hc : g.phase = .bidding ∧ (g.highBid : Int) < max 1 n
  · rw [if_pos hc]
  · rw [if_neg hc]

theorem placeBid_rejected (g : Game) (pid : String) (n : Int) (now : ℚ)
    (h : (placeBid g pid n now).2.isSome = false) :
    placeBid g pid n now = (g, none) := by
  rw [placeBid_eq] at h ⊢
  by_cases hc : g.phase = .bidding ∧ (g.highBid : Int) < max 1 n
  · rw [if_pos hc] at h
    simp at h
  · rw [if_neg hc]

theorem placeBid_accepted (g : Game) (pid : String) (n : Int) (now : ℚ)
    (h : (placeBid g pid n now).2.isSome = true) :
    g.phase = .bidding ∧ (g.highBid : Int) < max 1 n ∧
    (placeBid g pid n now).1.highBid = (max 1 n).toNat ∧
    (placeBid g pid n now).1.highBidderId = some pid ∧
    g.highBid < (placeBid g pid n now).1.highBid := by
  rw [placeBid_eq] at h ⊢
  by_cases hc : g.phase = .bidding ∧ (g.highBid : Int) < max 1 n
  · rw [if_pos hc]
    refine ⟨hc.1, hc.2, rfl, rfl, ?_⟩
    have h1 : (1 : Int) ≤ max 1 n := le_max_left _ _
    have h2 := hc.2
    show g.highBid < (max 1 n).toNat
    omega
  · rw [if_neg hc] at h
    simp at h

theorem runBids_spec (cmds : List (String × Int × ℚ)) : ∀ g : Game,
    (∀ pb ∈ (runBids g cmds).2, g.highBid < pb.2) ∧
    List.Chain' (fun x y => x.2 < y.2) (runBids g cmds).2 ∧
    ((runBids g cmds).2 = [] →
      (runBids g cmds).1.highBidderId = g.highBidderId ∧
      (runBids g cmds).1.highBid = g.highBid) ∧
    (∀ pb, (runBids g cmds).2.getLast? = some pb →
      (runBids g cmds).1.highBidderId = some pb.1 ∧
      (runBids g cmds).1.highBid = pb.2) := by
  induction cmds with
  | nil =>
    intro g
    refine ⟨by simp [runBids], by simp [runBids], fun _ => ⟨rfl, rfl⟩, fun pb h => ?_⟩
    simp [runBids] at h
  | cons c rest ih =>
    intro g
    by_cases hacc : (placeBid g c.1 c.2.1 c.2.2).2.isSome = true
    · have hstep := placeBid_accepted g c.1 c.2.1 c.2.2 hacc
      have hrun : runBids g (c :: rest) =
          ((runBids (placeBid g c.1 c.2.1 c.2.2).1 rest).1,
            (c.1, (placeBid g c.1 c.2.1 c.2.2).1.highBid) ::
              (runBids (placeBid g c.1 c.2.1 c.2.2).1 rest).2) := by
        simp [runBids, hacc]
      set g1 := (placeBid g c.1 c.2.1 c.2.2).1 with hg1
      obtain ⟨hmem, hchain, hnil, hlast⟩ := ih g1
      refine ⟨?_, ?_, ?_, ?_⟩
      · intro pb hpb
        rw [hrun] at hpb
        rcases List.mem_cons.mp hpb with h | h
        · subst h; exact hstep.2.2.2.2
        · exact lt_trans hstep.2.2.2.2 (hmem pb h)
      · rw [hrun]
        refine List.chain'_cons'.mpr ⟨?_, hchain⟩
        intro y hy
        have hym : y ∈ (runBids g1 rest).2 := List.mem_of_mem_head? hy
        exact hmem y hym
      · rw [hrun]
        intro h
        simp at h
      · intro pb hpb
        rw [hrun] at hpb ⊢
        rcases hcase : (runBids g1 rest).2 with _ | ⟨q, qs⟩
        · rw [hcase] at hpb
          simp at hpb
          subst hpb
          have := hnil hcase
          exact ⟨this.1.trans hstep.2.2.2.1, this.2⟩
        · rw [hcase] at hpb
          rw [List.getLast?_cons_cons] at hpb
          have := hlast pb (by rw [hcase]; exact hpb)
          exact this
    · have hacc' : (placeBid g c.1 c.2.1 c.2.2).2.isSome = false := by
        cases h : (placeBid g c.1 c.2.1 c.2.2).2.isSome
        · rfl
        · exact absurd h hacc
      have hrej := placeBid_rejected g c.1 c.2.1 c.2.2 hacc'
      have hrun : runBids g (c :: rest) = runBids g rest := by
        simp [runBids, hacc', hrej]
      rw [hrun]
      exact ih g

theorem tick_timeout_eq (g : Game) (now : ℚ) (X : Finset String) (t : ℚ)
    (hd : g.phaseEndsAt = some t) (ht : t ≠ 0) (hle : t ≤ now) :
    tick g now X = match g.phase with
      | .bidding => tickBidding g now
      | .listing => tickListing g now
      | .summary => tickSummary g now X
      | _ => g := by
  unfold tick
  have hdp : deadlinePassed g.phaseEndsAt now = true := by
    rw [hd]
    simp [deadlinePassed, ht, hle]
  rw [hdp, if_pos rfl]

theorem tickListing_phase (g : Game) (now : ℚ) :
    (tickListing g now).phase = Phase.summary := rfl

theorem tickListing_deadline (g : Game) (now : ℚ) :
    (tickListing g now).phaseEndsAt = some (now + 3) := rfl

/-! ## Claim theorems -/

/-- C3 counterexample: with no bid yet (`highBid = 0`) a request of `n = 0`
fails the claimed guard `n > highBid ∧ n ≥ 1`, yet the handler accepts it (as a
bid of 1), because `n = max(1, int(...))` clamps before the comparison. -/
theorem place_bid_guard_cex :
    ((placeBid { Game.fresh "g" with phase := Phase.bidding } "a" 0 5).2.isSome = true) ∧
    (placeBid { Game.fresh "g" with phase := Phase.bidding } "a" 0 5).1.highBid = 1 ∧
    ¬ ((((({ Game.fresh "g" with phase := Phase.bidding } : Game).highBid : Int) < 0) ∧ (1 ≤ (0 : Int)))) := by
  decide

/-- C3 (amended): in the Bidding phase a `place_bid(n)` command is accepted iff
the clamped request `max 1 n` exceeds the current high bid — equivalently, iff
`n > highBid ∧ n ≥ 1`, or `n ≤ 0 ∧ highBid = 0` (the handler clamps `n` up to 1
before comparing, so a request below 1 is accepted as a bid of 1 whenever no
bid has been placed); on acceptance high bid and bidder are updated, and when
the guard fails the session state is unchanged and no event is emitted. -/
theorem place_bid_accept_iff (g : Game) (pid : String) (n : Int) (now : ℚ)
    (hphase : g.phase = Phase.bidding) :
    ((placeBid g pid n now).2.isSome = true ↔ (g.highBid : Int) < max 1 n) ∧
    ((g.highBid : Int) < max 1 n ↔
      ((1 ≤ n ∧ (g.highBid : Int) < n) ∨ (n ≤ 0 ∧ g.highBid = 0))) ∧
    ((placeBid g pid n now).2.isSome = false → placeBid g pid n now = (g, none)) ∧
    ((placeBid g pid n now).2.isSome = true →
      (placeBid g pid n now).1.highBid = (max 1 n).toNat ∧
      (placeBid g pid n now).1.highBidderId = some pid) := by
  refine ⟨⟨fun h => (placeBid_accepted g pid n now h).2.1, fun h => ?_⟩, ?_,
    placeBid_rejected g pid n now,
    fun h => ⟨(placeBid_accepted g pid n now h).2.2.1,
      (placeBid_accepted g pid n now h).2.2.2.1⟩⟩
  · rw [placeBid_eq, if_pos ⟨hphase, h⟩]
    rfl
  · by_cases hn : 1 ≤ n
    · rw [max_eq_right hn]
      omega
    · push_neg at hn
      rw [max_eq_left (by omega : n ≤ 1)]
      omega

/-- Witness for C3's amended theorem: a concrete accepted bid of 3. -/
theorem place_bid_accept_iff_witness :
    ((placeBid wBid "a" 3 1).2.isSome = true) ∧
    (placeBid wBid "a" 3 1).1.highBid = (max 1 (3 : Int)).toNat := by
  have h := place_bid_accept_iff wBid "a" 3 1 rfl
  have hacc : (placeBid wBid "a" 3 1).2.isSome = true := h.1.mpr (by decide)
  exact ⟨hacc, (h.2.2.2 hacc).1⟩

/-- C4: over any sequence of `place_bid` commands processed from a
Bidding-phase state, the accepted high bids form a strictly increasing
sequence, and after each acceptance (i.e. for every prefix of the commands
whose trace is nonempty) the high bidder is the player whose bid was last
accepted and the high bid is that accepted value. -/
theorem bidding_trace_strictly_increasing (g : Game) (cmds : List (String × Int × ℚ))
    (hphase : g.phase = Phase.bidding) :
    List.Chain' (fun x y => x.2 < y.2) (runBids g cmds).2 ∧
    (∀ k pb, ((runBids g (cmds.take k)).2).getLast? = some pb →
      (runBids g (cmds.take k)).1.highBidderId = some pb.1 ∧
      (runBids g (cmds.take k)).1.highBid = pb.2) := by
  exact ⟨(runBids_spec cmds g).2.1, fun k pb h => (runBids_spec (cmds.take k) g).2.2.2 pb h⟩

/-- Witness for C4: bids 3, 2, 5 — the middle one rejected — end with high
bidder `b` at 5. -/
theorem bidding_trace_strictly_increasing_witness :
    (runBids wBid [("a", 3, 1), ("b", 2, 2), ("b", 5, 3)]).1.highBidderId = some "b" ∧
    (runBids wBid [("a", 3, 1), ("b", 2, 2), ("b", 5, 3)]).1.highBid = 5 := by
  have h := bidding_trace_strictly_increasing wBid [("a", 3, 1), ("b", 2, 2), ("b", 5, 3)] rfl
  exact h.2 3 ("b", 5) (by decide)

/-- C5: an accepted bid can only shorten the bidding window: with a (nonzero)
deadline `t` in place, the deadline after the bid is `min t (now + 5)`, which
is at most `t`.  (A zero deadline is excluded: Python's `or` treats the float
`0.0` like an absent deadline; timestamps in real runs are positive.) -/
theorem place_bid_shot_clock (g : Game) (pid : String) (n : Int) (now t : ℚ)
    (hd : g.phaseEndsAt = some t) (ht : t ≠ 0)
    (hacc : (placeBid g pid n now).2.isSome = true) :
    (placeBid g pid n now).1.phaseEndsAt = some (min t (now + 5)) ∧
    min t (now + 5) ≤ t := by
  have hc := placeBid_accepted g pid n now hacc
  rw [placeBid_eq, if_pos ⟨hc.1, hc.2.1⟩]
  refine ⟨?_, min_le_left _ _⟩
  show some (min (pyOr g.phaseEndsAt (now + 15)) (now + 5)) = some (min t (now + 5))
  rw [hd]
  simp [pyOr, ht]

/-- Witness for C5: the accepted bid at time 1 caps the deadline 16 at 6. -/
theorem place_bid_shot_clock_witness :
    (placeBid wBid "a" 3 1).1.phaseEndsAt = some (min 16 ((1 : ℚ) + 5)) ∧
    min (16 : ℚ) (1 + 5) ≤ 16 := by
  exact place_bid_shot_clock wBid "a" 3 1 16 rfl (by decide) (by decide)

/-- C6: the outcome of `submit_item` from the lister during Listing is exactly
the classification of the normalized text against `usedItems` and
`categoryItems`: empty → no event and no state change; already used → rejected
`duplicate` with the state unchanged; not in the category → rejected `invalid`
with the state unchanged; otherwise accepted: the item is added to `usedItems`
and `listCount` is incremented. -/
theorem submit_item_cases (g : Game) (pid raw : String) (now : ℚ)
    (hphase : g.phase = Phase.listing) (hlister : g.listerId = some pid) :
    (normalize raw = "" → submitItem g pid raw now = (g, none)) ∧
    (normalize raw ≠ "" → normalize raw ∈ g.usedItems →
      submitItem g pid raw now = (g, some (.itemRejected "duplicate" (normalize raw)))) ∧
    (normalize raw ≠ "" → normalize raw ∉ g.usedItems → normalize raw ∉ g.categoryItems →
      submitItem g pid raw now = (g, some (.itemRejected "invalid" (normalize raw)))) ∧
    (normalize raw ≠ "" → normalize raw ∉ g.usedItems → normalize raw ∈ g.categoryItems →
      (submitItem g pid raw now).1.usedItems = insert (normalize raw) g.usedItems ∧
      (submitItem g pid raw now).1.listCount = g.listCount + 1 ∧
      (submitItem g pid raw now).2 = some (.listingUpdate (g.listCount + 1) (normalize raw))) := by
  unfold submitItem
  rw [if_pos ⟨hphase, hlister⟩]
  refine ⟨fun h => by rw [if_pos h], fun h hd => ?_, fun h hd hc => ?_, fun h hd hc => ?_⟩
  · rw [if_neg h, if_pos hd]
  · rw [if_neg h, if_neg hd, if_pos hc]
  · rw [if_neg h, if_neg hd, if_neg (not_not_intro hc)]
    by_cases hwin : (if g.highBid = 0 then 1 else g.highBid) ≤ g.listCount + 1
    · rw [if_pos hwin]
      exact ⟨rfl, rfl, rfl⟩
    · rw [if_neg hwin]
      exact ⟨rfl, rfl, rfl⟩

/-- Witness for C6: lister `a` submits ` Grape ` — accepted, count 1 → 2. -/
theorem submit_item_cases_witness :
    (submitItem wList "a" " Grape " 20).1.listCount = wList.listCount + 1 ∧
    (submitItem wList "a" " Grape " 20).2 =
      some (.listingUpdate (wList.listCount + 1) (normalize " Grape ")) := by
  have h := (submit_item_cases wList "a" " Grape " 20 rfl rfl).2.2.2
    (by decide) (by decide) (by decide)
  exact ⟨h.2.1, h.2.2⟩

/-- C8: an accepted item that brings `listCount` to at least `max(highBid, 1)`
adds the item to `usedItems`, increments `listCount`, and sets the deadline to
`now`, after which any tick at a time `≥ now` moves the session to Summary.
(`0 < now` is needed because Python treats a `0.0` deadline as unset;
`time.time()` is positive in every real run.) -/
theorem submit_item_reach_bid_forces_summary (g : Game) (pid raw : String) (now : ℚ)
    (hphase : g.phase = Phase.listing) (hlister : g.listerId = some pid)
    (hne : normalize raw ≠ "") (hnew : normalize raw ∉ g.usedItems)
    (hcat : normalize raw ∈ g.categoryItems)
    (hreach : max g.highBid 1 ≤ g.listCount + 1) (hnow : 0 < now) :
    (submitItem g pid raw now).1.usedItems = insert (normalize raw) g.usedItems ∧
    (submitItem g pid raw now).1.listCount = g.listCount + 1 ∧
    (submitItem g pid raw now).1.phaseEndsAt = some now ∧
    (∀ later : ℚ, now ≤ later → ∀ items : Finset String,
      (tick (submitItem g pid raw now).1 later items).phase = Phase.summary) := by
  have hq : (if g.highBid = 0 then 1 else g.highBid) ≤ g.listCount + 1 := by
    rcases Nat.eq_zero_or_pos g.highBid with h0 | h0
    · rw [if_pos h0]
      omega
    · rw [if_neg (by omega : ¬ g.highBid = 0)]
      calc g.highBid ≤ max g.highBid 1 := le_max_left _ _
        _ ≤ g.listCount + 1 := hreach
  unfold submitItem
  rw [if_pos ⟨hphase, hlister⟩, if_neg hne, if_neg hnew, if_neg (not_not_intro hcat),
    if_pos hq]
  refine ⟨rfl, rfl, rfl, ?_⟩
  intro later hlater items
  rw [tick_timeout_eq _ later items now rfl (ne_of_gt hnow) hlater]
  have hph : ({ g with
      usedItems := insert (normalize raw) g.usedItems
      listCount := g.listCount + 1
      phaseEndsAt := some now } : Game).phase = Phase.listing := hphase
  rw [hph]
  rfl

/-- Witness for C8: accepting ` Grape ` brings the count to the bid of 2 and
forces the next tick into Summary. -/
theorem submit_item_reach_bid_forces_summary_witness :
    (submitItem wList "a" " Grape " 20).1.phaseEndsAt = some (20 : ℚ) ∧
    (tick (submitItem wList "a" " Grape " 20).1 21 ∅).phase = Phase.summary := by
  have h := submit_item_reach_bid_forces_summary wList "a" " Grape " 20 rfl rfl
    (by decide) (by decide) (by decide) (by decide) (by decide)
  exact ⟨h.2.2.1, h.2.2.2 21 (by decide) ∅⟩

/-- C10: when the normalized text is both already used and absent from the
category, the rejection reason is `duplicate`, not `invalid` — the duplicate
check runs before the category-membership check. -/
theorem submit_item_duplicate_wins (g : Game) (pid raw : String) (now : ℚ)
    (hphase : g.phase = Phase.listing) (hlister : g.listerId = some pid)
    (hne : normalize raw ≠ "") (hdup : normalize raw ∈ g.usedItems)
    (hcat : normalize raw ∉ g.categoryItems) :
    (submitItem g pid raw now).2 = some (.itemRejected "duplicate" (normalize raw)) := by
  unfold submitItem
  rw [if_pos ⟨hphase, hlister⟩, if_neg hne, if_pos hdup]

/-- Witness for C10: ` APPLE ` normalizes to `apple`, which is used but not in
the category — rejected as `duplicate`. -/
theorem submit_item_duplicate_wins_witness :
    (submitItem wDup "a" " APPLE " 10).2 =
      some (.itemRejected "duplicate" (normalize " APPLE ")) := by
  exact submit_item_duplicate_wins wDup "a" " APPLE " 10 rfl rfl
    (by decide) (by decide) (by decide)

/-- C2 counterexample: with zero players, no bid ever placed, and an expired
Bidding deadline, the tick is not a no-op — the phase changes (to Listing). -/
theorem tick_zero_players_cex :
    (tick { Game.fresh "g" with phase := Phase.bidding, phaseEndsAt := some 10 } 10 ∅).phase
      ≠ Phase.bidding := by
  decide

/-- C2 (amended): on a Bidding timeout with zero registered players and no bid
ever placed, the engine does not crash, but the tick is not a no-op: the
session enters Listing with no lister (`listerId = none`), `listCount = 0`,
`usedItems = ∅` and deadline `now + 30`, while `highBid`, `highBidderId`,
`players` and `scores` are unchanged. -/
theorem tick_zero_players (g : Game) (now t : ℚ) (X : Finset String)
    (hphase : g.phase = Phase.bidding) (hplayers : g.players = [])
    (hbidder : g.highBidderId = none)
    (hd : g.phaseEndsAt = some t) (ht : t ≠ 0) (hle : t ≤ now) :
    (tick g now X).phase = Phase.listing ∧
    (tick g now X).listerId = none ∧
    (tick g now X).highBid = g.highBid ∧
    (tick g now X).highBidderId = none ∧
    (tick g now X).usedItems = ∅ ∧
    (tick g now X).listCount = 0 ∧
    (tick g now X).phaseEndsAt = some (now + 30) ∧
    (tick g now X).players = [] ∧
    (tick g now X).scores = g.scores := by
  have heq : tick g now X = tickBidding g now := by
    rw [tick_timeout_eq g now X t hd ht hle, hphase]
  have hseed : ¬ ((¬ strTruthy g.highBidderId = true) ∧ g.players ≠ []) :=
    fun hc => hc.2 hplayers
  have hb : tickBidding g now =
      { g with
          listerId := g.highBidderId
          phase := .listing
          listCount := 0
          usedItems := ∅
          phaseEndsAt := some (now + 30) } := by
    unfold tickBidding
    rw [if_neg hseed]
  rw [heq, hb]
  exact ⟨rfl, hbidder, rfl, hbidder, rfl, rfl, rfl, hplayers, rfl⟩

/-- Witness for C2's amended theorem at a concrete stalled session. -/
theorem tick_zero_players_witness :
    (tick { Game.fresh "g" with phase := Phase.bidding, phaseEndsAt := some 10 } 11 ∅).phase
      = Phase.listing := by
  exact (tick_zero_players { Game.fresh "g" with phase := Phase.bidding, phaseEndsAt := some 10 }
    11 10 ∅ rfl rfl rfl rfl (by decide) (by decide)).1

theorem roundWinner_two (g : Game) (a b L : String)
    (hplayers : g.players = [a, b]) (hab : a ≠ b)
    (hL : g.listerId = some L) (hLab : L = a ∨ L = b) :
    roundWinner g = some (if g.highBid ≤ g.listCount then L else if L = a then b else a) := by
  unfold roundWinner
  rw [hplayers, hL]
  by_cases hhit : g.highBid ≤ g.listCount
  · rw [if_pos hhit, if_pos hhit]
  · rw [if_neg hhit, if_neg hhit, if_pos (by simp : ([a, b] : List String).length = 2)]
    rcases hLab with h | h
    · subst h
      rw [if_pos rfl]
      have hfil : List.filter (fun p => some p ≠ some L) [L, b] = [b] := by
        simp [List.filter_cons, Ne.symm hab]
      rw [hfil]
      rfl
    · subst h
      rw [if_neg (Ne.symm hab)]
      have hfil : List.filter (fun p => some p ≠ some L) [a, L] = [a] := by
        simp [List.filter_cons, hab]
      rw [hfil]
      rfl

theorem roundScores_eq (g : Game) (w : String) (hw : roundWinner g = some w)
    (hne : w ≠ "") :
    roundScores g = dictSet g.scores w (dictGet g.scores w + 1) := by
  unfold roundScores
  rw [hw]
  rw [if_pos (by simp [strTruthy, hne])]

/-- C7: on a Listing timeout in a two-player session, `listerHit` is
`listCount ≥ highBid`; the winner is the lister on a hit and the other player
otherwise; exactly the winner's score is incremented by 1, and the session
enters Summary with deadline `now + 3` (3 is `summarySeconds` in `main.py`). -/
theorem listing_timeout_two_players (g : Game) (now t : ℚ) (X : Finset String)
    (a b L : String)
    (hphase : g.phase = Phase.listing)
    (hd : g.phaseEndsAt = some t) (ht : t ≠ 0) (hle : t ≤ now)
    (hplayers : g.players = [a, b]) (hab : a ≠ b)
    (hL : g.listerId = some L) (hLab : L = a ∨ L = b)
    (hLne : L ≠ "") (hane : a ≠ "") (hbne : b ≠ "") :
    (tick g now X).phase = Phase.summary ∧
    (tick g now X).phaseEndsAt = some (now + 3) ∧
    dictGet (tick g now X).scores
        (if g.highBid ≤ g.listCount then L else if L = a then b else a) =
      dictGet g.scores (if g.highBid ≤ g.listCount then L else if L = a then b else a) + 1 ∧
    (∀ p, p ≠ (if g.highBid ≤ g.listCount then L else if L = a then b else a) →
      dictGet (tick g now X).scores p = dictGet g.scores p) := by
  have heq : tick g now X = tickListing g now := by
    rw [tick_timeout_eq g now X t hd ht hle, hphase]
  have hwinner := roundWinner_two g a b L hplayers hab hL hLab
  have hwne : (if g.highBid ≤ g.listCount then L else if L = a then b else a) ≠ "" := by
    by_cases hhit : g.highBid ≤ g.listCount
    · rw [if_pos hhit]; exact hLne
    · rw [if_neg hhit]
      by_cases hla : L = a
      · rw [if_pos hla]; exact hbne
      · rw [if_neg hla]; exact hane
  have hsc : (tickListing g now).scores =
      dictSet g.scores (if g.highBid ≤ g.listCount then L else if L = a then b else a)
        (dictGet g.scores (if g.highBid ≤ g.listCount then L else if L = a then b else a) + 1) := by
    show roundScores g = _
    exact roundScores_eq g _ hwinner hwne
  rw [heq]
  refine ⟨tickListing_phase g now, tickListing_deadline g now, ?_, ?_⟩
  · rw [hsc, dictGet_dictSet, if_pos rfl]
  · intro p hp
    rw [hsc, dictGet_dictSet, if_neg hp]

/-- Witness for C7: in `wList` the lister `a` misses (1 listed of 2 bid), so
`b` wins the round and is credited. -/
theorem listing_timeout_two_players_witness :
    (tick wList 50 ∅).phase = Phase.summary ∧
    dictGet (tick wList 50 ∅).scores "b" = dictGet wList.scores "b" + 1 := by
  have h := listing_timeout_two_players wList 50 50 ∅ "a" "b" "a" rfl rfl
    (by decide) (by decide) rfl (by decide) rfl (Or.inl rfl)
    (by decide) (by decide) (by decide)
  exact ⟨h.1, h.2.2.1⟩

/-- C1 counterexample: `main_postgres.py` hardcodes the Summary win target to 1,
so in a best-of-5 session a score of 1 — below `floor(5/2)+1 = 3` — already
ends the match, contradicting the claimed threshold. -/
theorem summary_timeout_threshold_cex :
    (tickSummaryPg
      { Game.fresh "g" with
          phase := Phase.summary
          bestOf := 5
          scores := [("a", 1), ("b", 0)]
          phaseEndsAt := some 10 } 10).phase = Phase.ended ∧
    ((([("a", 1), ("b", 0)] : List (String × Nat)).map (fun kv => kv.2)).any
      (fun s => 5 / 2 + 1 ≤ s)) = false := by
  decide

/-- C1 (amended): in `main.py` a Summary timeout ends the match iff some score
reaches `floor(bestOf/2) + 1` (for `bestOf = 5`: 3 ends it, 2 does not), and
otherwise the round increments and the session returns to Bidding; in
`main_postgres.py` the same transition instead ends the match iff some score
reaches the hardcoded target 1, regardless of `bestOf`. -/
theorem summary_timeout_threshold (g : Game) (now t : ℚ) (X : Finset String)
    (hphase : g.phase = Phase.summary) (hd : g.phaseEndsAt = some t)
    (ht : t ≠ 0) (hle : t ≤ now) :
    ((tick g now X).phase = Phase.ended ↔ ∃ kv ∈ g.scores, g.bestOf / 2 + 1 ≤ kv.2) ∧
    ((¬ ∃ kv ∈ g.scores, g.bestOf / 2 + 1 ≤ kv.2) →
      (tick g now X).phase = Phase.bidding ∧
      (tick g now X).round = g.round + 1 ∧
      (tick g now X).highBid = 0 ∧
      (tick g now X).highBidderId = none ∧
      (tick g now X).phaseEndsAt = some (now + 15)) ∧
    ((tickSummaryPg g now).phase = Phase.ended ↔ ∃ kv ∈ g.scores, 1 ≤ kv.2) := by
  have heq : tick g now X = tickSummary g now X := by
    rw [tick_timeout_eq g now X t hd ht hle, hphase]
  have hany : ((g.scores.map (fun kv => kv.2)).any (fun s => g.bestOf / 2 + 1 ≤ s) = true)
      ↔ ∃ kv ∈ g.scores, g.bestOf / 2 + 1 ≤ kv.2 := by
    simp only [List.any_eq_true, List.mem_map]
    constructor
    · rintro ⟨s, ⟨kv, hkv, rfl⟩, hs⟩
      exact ⟨kv, hkv, by simpa using hs⟩
    · rintro ⟨kv, hkv, hs⟩
      exact ⟨kv.2, ⟨kv, hkv, rfl⟩, by simpa using hs⟩
  have hany1 : ((g.scores.map (fun kv => kv.2)).any (fun s => 1 ≤ s) = true)
      ↔ ∃ kv ∈ g.scores, 1 ≤ kv.2 := by
    simp only [List.any_eq_true, List.mem_map]
    constructor
    · rintro ⟨s, ⟨kv, hkv, rfl⟩, hs⟩
      exact ⟨kv, hkv, by simpa using hs⟩
    · rintro ⟨kv, hkv, hs⟩
      exact ⟨kv.2, ⟨kv, hkv, rfl⟩, by simpa using hs⟩
  rw [heq]
  unfold tickSummary tickSummaryPg
  refine ⟨?_, ?_, ?_⟩
  · by_cases hwin : (g.scores.map (fun kv => kv.2)).any (fun s => g.bestOf / 2 + 1 ≤ s) = true
    · rw [if_pos hwin]
      exact iff_of_true rfl (hany.mp hwin)
    · rw [if_neg hwin]
      exact iff_of_false (fun h => Phase.noConfusion h) (fun hex => hwin (hany.mpr hex))
  · intro hno
    have hwin : ¬ (g.scores.map (fun kv => kv.2)).any (fun s => g.bestOf / 2 + 1 ≤ s) = true :=
      fun h => hno (hany.mp h)
    rw [if_neg hwin]
    exact ⟨rfl, rfl, rfl, rfl, rfl⟩
  · by_cases hw : (g.scores.map (fun kv => kv.2)).any (fun s => 1 ≤ s) = true
    · rw [if_pos hw]
      exact iff_of_true rfl (hany1.mp hw)
    · rw [if_neg hw]
      exact iff_of_false (fun h => Phase.noConfusion h) (fun hex => hw (hany1.mpr hex))

/-- Witness for C1's amended theorem: in `wSum` (best-of-5) the score 3 ends
the match. -/
theorem summary_timeout_threshold_witness :
    (tick wSum 10 ∅).phase = Phase.ended := by
  have h := summary_timeout_threshold wSum 10 10 ∅ rfl rfl (by decide) (by decide)
  exact h.1.mpr ⟨("a", 3), by decide, by decide⟩

/-- C9: `listCount` equals the cardinality of `usedItems` in a fresh session,
and the equality is preserved by every operation of the engine: `place_bid`,
`pass`, `submit_item`, `start_match`, and the tick (all timeout branches). -/
theorem list_count_matches_used_items (i pid raw : String) (n : Int) (b : Nat)
    (now : ℚ) (X : Finset String) (g : Game) (h : listInv g) :
    listInv (Game.fresh i) ∧
    listInv (placeBid g pid n now).1 ∧
    listInv (passCmd g now).1 ∧
    listInv (submitItem g pid raw now).1 ∧
    listInv (startMatch g b) ∧
    listInv (tick g now X) := by
  refine ⟨by simp [Game.fresh, listInv], ?_, ?_, ?_, ?_, ?_⟩
  · rw [placeBid_eq]
    by_cases hc : g.phase = .bidding ∧ (g.highBid : Int) < max 1 n
    · rw [if_pos hc]; exact h
    · rw [if_neg hc]; exact h
  · unfold passCmd
    by_cases hc : g.phase = .bidding ∧ strTruthy g.highBidderId = true
    · rw [if_pos hc]
      show (0 : Nat) = (∅ : Finset String).card
      simp
    · rw [if_neg hc]; exact h
  · unfold submitItem
    by_cases hc : g.phase = .listing ∧ g.listerId = some pid
    · rw [if_pos hc]
      by_cases h1 : normalize raw = ""
      · rw [if_pos h1]; exact h
      · rw [if_neg h1]
        by_cases h2 : normalize raw ∈ g.usedItems
        · rw [if_pos h2]; exact h
        · rw [if_neg h2]
          by_cases h3 : normalize raw ∉ g.categoryItems
          · rw [if_pos h3]; exact h
          · rw [if_neg h3]
            have hcard : (insert (normalize raw) g.usedItems).card = g.usedItems.card + 1 :=
              Finset.card_insert_of_not_mem h2
            by_cases h4 : (if g.highBid = 0 then 1 else g.highBid) ≤ g.listCount + 1
            · rw [if_pos h4]
              show g.listCount + 1 = (insert (normalize raw) g.usedItems).card
              rw [hcard, h]
            · rw [if_neg h4]
              show g.listCount + 1 = (insert (normalize raw) g.usedItems).card
              rw [hcard, h]
    · rw [if_neg hc]; exact h
  · unfold startMatch
    by_cases hc : g.phase = .lobby
    · rw [if_pos hc]; exact h
    · rw [if_neg hc]; exact h
  · unfold tick
    by_cases hdp : deadlinePassed g.phaseEndsAt now = true
    · rw [if_pos hdp]
      cases hph : g.phase
      · exact h
      · unfold tickBidding
        by_cases hseed : (¬ strTruthy g.highBidderId = true) ∧ g.players ≠ []
        · rw [if_pos hseed]
          show (0 : Nat) = (∅ : Finset String).card
          simp
        · rw [if_neg hseed]
          show (0 : Nat) = (∅ : Finset String).card
          simp
      · exact h
      · unfold tickSummary
        by_cases hwin : (g.scores.map (fun kv => kv.2)).any
            (fun s => g.bestOf / 2 + 1 ≤ s) = true
        · rw [if_pos hwin]; exact h
        · rw [if_neg hwin]; exact h
      · exact h
    · rw [if_neg hdp]; exact h

/-- Witness for C9: the invariant holds in `wList` (1 item listed, 1 used) and
is preserved there by an accepted submission and by the tick. -/
theorem list_count_matches_used_items_witness :
    listInv (Game.fresh "w") ∧
    listInv (submitItem wList "a" " Grape " 20).1 ∧
    listInv (tick wList 50 ∅) := by
  have h := list_count_matches_used_items "w" "a" " Grape " 3 5 20 ∅ wList
    (by unfold listInv wList Game.fresh; decide)
  have h' := list_count_matches_used_items "w" "a" " Grape " 3 5 50 ∅ wList
    (by unfold listInv wList Game.fresh; decide)
  exact ⟨h.1, h.2.2.2.1, h'.2.2.2.2.2⟩

end LiveCategories
